import Mathlib

/-!
Verification of the Harmony Compiler paper-tape codec programs
(src/verify/decodehcint.c and src/tweak/tweak.c).

The two programs share a frame/word codec (rpb reads one 18-bit word from
8-bit tape frames, ppb writes one), an 18-bit end-around-carry checksum
(add_1s_complement, verify_checksum), and a section/voice framing loop.
Here they are embedded shallowly: a tape image is a list of natural
numbers (one per byte), every C function becomes an executable Lean
function of the same name, loops become recursion on the number of words
the section has left (the C loops are driven by part_word_count, which
runs from 1 to total_word_count + 2; we pass rem = total_word_count + 2 -
part_word_count), and exit(1)/EOF outcomes become explicit result
constructors.
-/

set_option maxRecDepth 10000

/-- Result of one rpb call (decodehcint.c:56, tweak.c:40): the counts of
leading blank frames (gap_frames) and interior blank frames
(inner_frames), and either the assembled word with the remaining stream,
or none when fgetc hit EOF before three data frames were read.  The C
function reports the counts through out-parameters even on EOF. -/
structure RpbOut where
  gaps : Nat
  inner : Nat
  res : Option (Nat × List Nat)
deriving DecidableEq

/-- Loop body of rpb: i counts data frames taken (the C for-loop index),
word is the partial word.  A frame with the 0200 bit set contributes its
low 6 bits; any other frame counts as gap if no data frame was taken yet,
and as an inner blank otherwise. -/
def rpbAux : List Nat → Nat → Nat → Nat → Nat → RpbOut
  | [], _i, _word, gaps, inner => ⟨gaps, inner, none⟩
  | c :: s, i, word, gaps, inner =>
    if c &&& 0o200 ≠ 0 then
      if i + 1 = 3 then ⟨gaps, inner, some ((word <<< 6) ||| (c &&& 0o77), s)⟩
      else rpbAux s (i + 1) ((word <<< 6) ||| (c &&& 0o77)) gaps inner
    else if i ≠ 0 then rpbAux s i word gaps (inner + 1)
    else rpbAux s i word (gaps + 1) inner

/-- rpb: read one 18-bit word from three marked tape frames
(decodehcint.c:56-80, tweak.c:40-64, identical in both programs). -/
def rpb (s : List Nat) : RpbOut := rpbAux s 0 0 0 0

/-- ppb (tweak.c:66-70): write one 18-bit word as three frames, big-endian
6-bit groups, each OR'd with the 0200 marker bit. -/
def ppb (word : Nat) : List Nat :=
  [0o200 ||| ((word &&& 0o770000) >>> 12),
   0o200 ||| ((word &&& 0o007700) >>> 6),
   0o200 ||| (word &&& 0o000077)]

/-- add_1s_complement (decodehcint.c:165-169, tweak.c:125-129): 18-bit
end-around-carry addition.  The C sum is a uint32_t, hence the mod 2^32;
the carry out of bit 17 is added back and the result masked to 18 bits. -/
def add_1s_complement (a b : Nat) : Nat :=
  let sum := (a + b) % 2 ^ 32
  ((sum &&& 0o777777) + (sum >>> 18)) &&& 0o777777

/-- verify_checksum (decodehcint.c:171-178, tweak.c:131-138): succeeds
(true) exactly when the two values are equal; in C a mismatch exits. -/
def verify_checksum (expected calculated : Nat) : Bool :=
  expected == calculated

/-- Folding the rolling checksum over a word list, as the section loops do
with their checksum accumulator. -/
def foldAdd (c : Nat) (ws : List Nat) : Nat :=
  ws.foldl add_1s_complement c

/-- Fatal error conditions: each corresponds to an exit(1) site (or, for
eof handling, a distinguished return) in the C sources. -/
inductive Err where
  | innerDropout
  | checksumMismatch
  | missingGap
  | invalidArticulation
  | earlyBarsSentinel
  | noteIndexOutOfRange
deriving DecidableEq

/-- Result of read_next_word (decodehcint.c:82-109, tweak.c:72-99): the
word with its leading gap count and the remaining stream, or EOF, or the
inner-dropout exit.  The C code checks inner_frames before the EOF check,
so a word cut off by EOF after an interior blank still dies as a dropout. -/
inductive ReadRes where
  | ok (word : Nat) (gaps : Nat) (s : List Nat)
  | eof (gaps : Nat)
  | innerDropout (inner : Nat)
deriving DecidableEq

/-- read_next_word: read one word through rpb; nonzero inner_frames is the
fatal inner-dropout exit, then EOF is passed through. -/
def read_next_word (s : List Nat) : ReadRes :=
  let r := rpb s
  if r.inner ≠ 0 then .innerDropout r.inner
  else
    match r.res with
    | none => .eof r.gaps
    | some (w, s2) => .ok w r.gaps s2

/-- peek_gap (decodehcint.c:111-133, tweak.c:101-123): read the next word
only for its leading gap length, restoring the stream position; returns
the gap count and whether rpb hit EOF. -/
def peek_gap (s : List Nat) : Nat × Bool :=
  let r := rpb s
  (r.gaps, r.res.isNone)

/-- NOTE_NAMES (decodehcint.c:40): the fixed chromatic table. -/
def NOTE_NAMES : List String :=
  List.flatten [["C", "C#"], ["D", "D#"], ["E"], ["F", "F#"], ["G", "G#"], ["A", "A#"], ["B"]]

/-- REST_NAME (decodehcint.c:41). -/
def REST_NAME : String := "r"

/-- ARTICULATION_NAMES (decodehcint.c:42). -/
def ARTICULATION_NAMES : List String :=
  ["normal", "quarter", "half", "staccato", "legato"]

/-- note_t (decodehcint.c:44-54): the decoded fields of a note word. -/
structure note_t where
  articulation : Nat
  triplet : Nat
  pitch : Nat
  duration : Nat
  note_duration : Nat
  note_pitch : Nat
  octave : Nat
  semi_tone : Nat
  note_name : String
deriving DecidableEq

/-- parse_note (decodehcint.c:135-155).  Nat division is total, so the
C division 192 / (duration * multiplier), which for duration = 0 divides
by zero (undefined behavior in C), here yields 192 / 0 = 0. -/
def parse_note (word : Nat) : note_t :=
  let articulation := ((word >>> 14) &&& 0o14) ||| ((word &&& 0o60000) >>> 13)
  let triplet := (word &&& 0o100000) >>> 15
  let pitch := (word >>> 7) &&& 0o77
  let duration := word &&& 0o177
  let note_duration := 192 / (duration * (if triplet ≠ 0 then 2 else 3))
  if pitch > 1 then
    let note_pitch := pitch - 2
    { articulation := articulation, triplet := triplet, pitch := pitch,
      duration := duration, note_duration := note_duration,
      note_pitch := note_pitch, octave := note_pitch / 12 + 1,
      semi_tone := note_pitch % 12,
      note_name := NOTE_NAMES.getD (note_pitch % 12) "" }
  else
    { articulation := articulation, triplet := triplet, pitch := pitch,
      duration := duration, note_duration := note_duration,
      note_pitch := 0, octave := 0, semi_tone := 0, note_name := REST_NAME }

/-- decode_tempo_quarter (decodehcint.c:157-163); divides by the low 15
bits of the tempo word with no zero guard. -/
def decode_tempo_quarter (tempo : Nat) : Nat :=
  11436 / (tempo &&& 0o77777)

/-- articulation_name (decodehcint.c:180-199): the switch accepts the
composite values 0, 1, 2, 4, 8 and exits fatally on any other value
(modelled as none). -/
def articulation_name (articulation : Nat) : Option String :=
  if articulation = 0 ∨ articulation = 1 ∨ articulation = 2 then
    some (ARTICULATION_NAMES.getD articulation "")
  else if articulation = 4 then some (ARTICULATION_NAMES.getD 3 "")
  else if articulation = 8 then some (ARTICULATION_NAMES.getD 4 "")
  else none

/-- Result of the read_notes loop body (decodehcint.c:211-267). -/
inductive NotesLoopRes where
  | ok (notes : List Nat) (s : List Nat)
  | eof
  | fatal (e : Err)
deriving DecidableEq

/-- The read_notes while-loop for part_word_count of 2 and above, indexed
by rem = total_word_count + 2 - part_word_count.  rem = 0 is the checksum
word (part_word_count = total_word_count + 2); while rem is positive the
word is folded into the checksum and stored in the notes buffer, then
classified as measure separator, tempo word, or note (a pitched note
dies if its articulation value is invalid, decodehcint.c:246-253). -/
def read_notes_loop : Nat → List Nat → Nat → List Nat → NotesLoopRes
  | 0, s, checksum, notes =>
    match read_next_word s with
    | .innerDropout _ => .fatal .innerDropout
    | .eof _ => .eof
    | .ok word _ s2 =>
      if verify_checksum word checksum then .ok notes s2 else .fatal .checksumMismatch
  | r + 1, s, checksum, notes =>
    match read_next_word s with
    | .innerDropout _ => .fatal .innerDropout
    | .eof _ => .eof
    | .ok word _ s2 =>
      let checksum2 := add_1s_complement checksum word
      let notes2 := notes ++ [word]
      if word = 0o600000 then read_notes_loop r s2 checksum2 notes2
      else if word &&& 0o700000 = 0o700000 then
        let _tempo := decode_tempo_quarter word
        read_notes_loop r s2 checksum2 notes2
      else
        let note := parse_note word
        if note.pitch > 1 then
          match articulation_name note.articulation with
          | none => .fatal .invalidArticulation
          | some _ => read_notes_loop r s2 checksum2 notes2
        else read_notes_loop r s2 checksum2 notes2

/-- Result of read_notes (decodehcint.c:201-270): the notes buffer, the
notes_count handed to read_bars, and the remaining stream; or the EOF
return (decodehcint.c:212-215); or an exit(1). -/
inductive NotesRes where
  | ok (notes : List Nat) (notes_count : Nat) (s : List Nat)
  | eof
  | fatal (e : Err)
deriving DecidableEq

/-- read_notes: the first word is total_word_count; notes_count is
total_word_count - 1 computed in uint32_t arithmetic (so 2^32 - 1 when
total_word_count = 0), and the loop then reads total_word_count data
words plus the checksum word. -/
def read_notes (s : List Nat) : NotesRes :=
  match read_next_word s with
  | .innerDropout _ => .fatal .innerDropout
  | .eof _ => .eof
  | .ok total _ s2 =>
    match read_notes_loop total s2 0 [] with
    | .ok notes s3 => .ok notes ((total + 0xFFFFFFFF) % 2 ^ 32) s3
    | .eof => .eof
    | .fatal e => .fatal e

/-- The measure-printing loop of read_bars (decodehcint.c:331-339): walk
the notes buffer from the bar's start index, parsing notes until the
0600000 separator or the notes_count bound.  The C loop reads at most
notes_count - idx further entries, which is the fuel here; out-of-buffer
reads (possible when notes_count underflowed) yield 0. -/
def decode_measure (notes : List Nat) (notes_count : Nat) : Nat → Nat → List note_t
  | _idx, 0 => []
  | idx, fuel + 1 =>
    if notes.getD idx 0 ≠ 0o600000 ∧ idx < notes_count then
      parse_note (notes.getD idx 0) :: decode_measure notes notes_count (idx + 1) fuel
    else []

/-- Result of read_bars (decodehcint.c:272-346): continue with the next
voice, or the EOF return value (produced both by EOF inside the section,
decodehcint.c:284-286, and by EOF at the post-checksum peek,
decodehcint.c:307-311 - the function returns the same EOF either way), or
an exit(1). -/
inductive BarsRes where
  | nextVoice (s : List Nat)
  | eof
  | fatal (e : Err)
deriving DecidableEq

/-- The read_bars while-loop for part_word_count of 2 and above, indexed
by rem = total_word_count + 2 - part_word_count as in read_notes.  A
0600000 sentinel anywhere but the last data word (rem = 1, that is,
part_word_count = total_word_count + 1) is fatal (decodehcint.c:316-321);
other data words are note-buffer indices, checked against notes_count
(decodehcint.c:323-326).  At rem = 0 the checksum is verified and the
next word peeked: EOF there is the end-of-voices return. -/
def read_bars_loop : Nat → List Nat → Nat → List Nat → Nat → BarsRes
  | 0, s, checksum, _notes, _notes_count =>
    match read_next_word s with
    | .innerDropout _ => .fatal .innerDropout
    | .eof _ => .eof
    | .ok word _ s2 =>
      if verify_checksum word checksum then
        match peek_gap s2 with
        | (_, true) => .eof
        | (_, false) => .nextVoice s2
      else .fatal .checksumMismatch
  | r + 1, s, checksum, notes, notes_count =>
    match read_next_word s with
    | .innerDropout _ => .fatal .innerDropout
    | .eof _ => .eof
    | .ok word _ s2 =>
      let checksum2 := add_1s_complement checksum word
      if word = 0o600000 then
        if r ≠ 0 then .fatal .earlyBarsSentinel
        else read_bars_loop r s2 checksum2 notes notes_count
      else
        if word ≥ notes_count then .fatal .noteIndexOutOfRange
        else
          let _measure := decode_measure notes notes_count word (notes_count - word)
          read_bars_loop r s2 checksum2 notes notes_count

/-- read_bars: the first word is the bars total_word_count; it must carry
a nonzero leading gap (decodehcint.c:295-299), else MissingGapError. -/
def read_bars (s : List Nat) (notes : List Nat) (notes_count : Nat) : BarsRes :=
  match read_next_word s with
  | .innerDropout _ => .fatal .innerDropout
  | .eof _ => .eof
  | .ok total gaps s2 =>
    if gaps = 0 then .fatal .missingGap
    else read_bars_loop total s2 0 notes notes_count

/-- Observable outcome of the decodehcint main voice loop
(decodehcint.c:375-390): normal exit 0, the exit-1 EOF-in-notes error, or
one of the exit(1) aborts. -/
inductive RunResult where
  | ok
  | eofInNotes
  | fatal (e : Err)
deriving DecidableEq

/-- The main voice loop while (voice <= 4): read_notes then read_bars per
voice; read_notes EOF is the error return 1, read_bars EOF breaks out of
the loop (normal termination), and the loop also ends normally after 4
voices. -/
def decode_voices : Nat → List Nat → RunResult
  | 0, _s => .ok
  | fuel + 1, s =>
    match read_notes s with
    | .eof => .eofInNotes
    | .fatal e => .fatal e
    | .ok notes notes_count s2 =>
      match read_bars s2 notes notes_count with
      | .eof => .ok
      | .fatal e => .fatal e
      | .nextVoice s3 => decode_voices fuel s3

/-- The whole decodehcint run on a tape image. -/
def decode_run (s : List Nat) : RunResult := decode_voices 4 s

/-- The byte image of a word list, one ppb call per word. -/
def ppbList (ws : List Nat) : List Nat := (ws.map ppb).flatten

/-- Result of copy_notes (tweak.c:140-190). -/
inductive CopyNotesRes where
  | ok (s : List Nat) (out : List Nat)
  | eof
  | fatal (e : Err)
deriving DecidableEq

/-- The copy_notes while-loop for part_word_count of 2 and above, indexed
by rem as in read_notes; out is the byte stream written so far.  A data
word with top octal digit 7 is a tempo word: when a tempo override is in
effect (tempo different from (uint32_t)-1 = 0xFFFFFFFF, tweak.c:171) the
substituted word 0700000 | (tempo & 0077777) is written and folded into
new_checksum; otherwise the original word is written and folded.  At
rem = 0 the source checksum is verified and new_checksum written in its
place (tweak.c:167-170). -/
def copy_notes_loop (tempo : Nat) : Nat → List Nat → Nat → Nat → List Nat → CopyNotesRes
  | 0, s, checksum, new_checksum, out =>
    match read_next_word s with
    | .innerDropout _ => .fatal .innerDropout
    | .eof _ => .eof
    | .ok word _ s2 =>
      if verify_checksum word checksum then .ok s2 (out ++ ppb new_checksum)
      else .fatal .checksumMismatch
  | r + 1, s, checksum, new_checksum, out =>
    match read_next_word s with
    | .innerDropout _ => .fatal .innerDropout
    | .eof _ => .eof
    | .ok word _ s2 =>
      let checksum2 := add_1s_complement checksum word
      if word &&& 0o700000 = 0o700000 ∧ tempo ≠ 0xFFFFFFFF then
        let new_word := 0o700000 ||| (tempo &&& 0o77777)
        copy_notes_loop tempo r s2 checksum2
          (add_1s_complement new_checksum new_word) (out ++ ppb new_word)
      else
        copy_notes_loop tempo r s2 checksum2
          (add_1s_complement new_checksum word) (out ++ ppb word)

/-- copy_notes: the count word is copied verbatim (it is written by the
bottom-of-loop ppb since is_tempo stays 0 and it is excluded from both
checksums), then the loop processes the data and checksum words. -/
def copy_notes (tempo : Nat) (s : List Nat) : CopyNotesRes :=
  match read_next_word s with
  | .innerDropout _ => .fatal .innerDropout
  | .eof _ => .eof
  | .ok total _ s2 => copy_notes_loop tempo total s2 0 0 (ppb total)

/-- The per-word substitution copy_notes applies to the data words of a
NOTES section: a tempo word is replaced by 0700000 OR'd with the low 15
bits of the override when one is in effect; every other word passes
through. -/
def subst_tempo (tempo w : Nat) : Nat :=
  if w &&& 0o700000 = 0o700000 ∧ tempo ≠ 0xFFFFFFFF then 0o700000 ||| (tempo &&& 0o77777)
  else w

/-- Result of copy_bars (tweak.c:192-240). -/
inductive CopyBarsRes where
  | nextVoice (s : List Nat) (out : List Nat)
  | eof (out : List Nat)
  | fatal (e : Err)
deriving DecidableEq

/-- The copy_bars while-loop: every word is copied through; at rem = 0 the
checksum is verified, copied, and the next word peeked for EOF
(tweak.c:221-232). -/
def copy_bars_loop : Nat → List Nat → Nat → List Nat → CopyBarsRes
  | 0, s, checksum, out =>
    match read_next_word s with
    | .innerDropout _ => .fatal .innerDropout
    | .eof _ => .eof out
    | .ok word _ s2 =>
      if verify_checksum word checksum then
        match peek_gap s2 with
        | (_, true) => .eof (out ++ ppb word)
        | (_, false) => .nextVoice s2 (out ++ ppb word)
      else .fatal .checksumMismatch
  | r + 1, s, checksum, out =>
    match read_next_word s with
    | .innerDropout _ => .fatal .innerDropout
    | .eof _ => .eof out
    | .ok word _ s2 =>
      copy_bars_loop r s2 (add_1s_complement checksum word) (out ++ ppb word)

/-- copy_bars: like read_bars, the count word must carry a nonzero
leading gap (tweak.c:213-218), else MissingGapError; the count word is
copied through. -/
def copy_bars (s : List Nat) : CopyBarsRes :=
  match read_next_word s with
  | .innerDropout _ => .fatal .innerDropout
  | .eof _ => .eof []
  | .ok total gaps s2 =>
    if gaps = 0 then .fatal .missingGap
    else copy_bars_loop total s2 0 (ppb total)

/-- Disjoint bit groups: OR of a left-shifted value with a small value is
their sum. -/
theorem shiftLeft_or_of_lt {b k : Nat} (a : Nat) (h : b < 2 ^ k) :
    (a <<< k) ||| b = a * 2 ^ k + b := by
  apply Nat.eq_of_testBit_eq
  intro i
  rw [Nat.testBit_or, Nat.testBit_shiftLeft, mul_comm a, Nat.testBit_mul_pow_two_add a h i]
  by_cases hik : i < k
  · have : ¬ (i ≥ k) := by omega
    simp [hik, this]
  · have hk : i ≥ k := by omega
    have hb : b.testBit i = false :=
      Nat.testBit_lt_two_pow (lt_of_lt_of_le h (Nat.pow_le_pow_right (by norm_num) hk))
    simp [hik, hk, hb]

/-- Masking with a shifted mask then shifting right is the same as
shifting right then masking. -/
theorem and_shiftLeft_shiftRight (w m k : Nat) :
    (w &&& (m <<< k)) >>> k = (w >>> k) &&& m := by
  apply Nat.eq_of_testBit_eq
  intro i
  rw [Nat.testBit_shiftRight, Nat.testBit_and, Nat.testBit_and, Nat.testBit_shiftRight,
    Nat.testBit_shiftLeft]
  have h1 : k + i ≥ k := by omega
  simp [h1]

/-- The low 6-bit mask is reduction mod 64. -/
theorem and_63_eq_mod (x : Nat) : x &&& 0o77 = x % 64 := by
  have h := Nat.and_pow_two_sub_one_eq_mod x 6
  norm_num at h
  exact h

/-- Facts about marked frames, checked by enumeration over the 6-bit
payload range: the 0200 marker bit reads back, the payload reads back, and
the 0100 bit is clear. -/
theorem frame_facts : ∀ x < 64,
    ((128 + x) &&& 0o200 ≠ 0) ∧ ((128 + x) &&& 0o77 = x) ∧ ((128 + x) &&& 0o100 = 0) := by
  decide

/-- The three frames ppb emits, in arithmetic normal form. -/
theorem ppb_eq (w : Nat) :
    ppb w = [128 + w / 4096 % 64, 128 + w / 64 % 64, 128 + w % 64] := by
  have or128 : ∀ x : Nat, x < 64 → 0o200 ||| x = 128 + x := by
    intro x hx
    have h := shiftLeft_or_of_lt (k := 7) 1 (show x < 2 ^ 7 by omega)
    simpa using h
  have h1 : (w &&& 0o770000) >>> 12 = w / 4096 % 64 := by
    have e : (0o770000 : Nat) = 63 <<< 12 := by decide
    rw [e, and_shiftLeft_shiftRight, and_63_eq_mod, Nat.shiftRight_eq_div_pow]
  have h2 : (w &&& 0o007700) >>> 6 = w / 64 % 64 := by
    have e : (0o007700 : Nat) = 63 <<< 6 := by decide
    rw [e, and_shiftLeft_shiftRight, and_63_eq_mod, Nat.shiftRight_eq_div_pow]
  have h3 : w &&& 0o000077 = w % 64 := and_63_eq_mod w
  unfold ppb
  rw [h1, h2, h3, or128 _ (Nat.mod_lt _ (by norm_num)), or128 _ (Nat.mod_lt _ (by norm_num)),
    or128 _ (Nat.mod_lt _ (by norm_num))]

theorem rpbAux_data (c : Nat) (s : List Nat) (i word gaps inner : Nat)
    (hc : c &&& 0o200 ≠ 0) (hi : i + 1 ≠ 3) :
    rpbAux (c :: s) i word gaps inner
      = rpbAux s (i + 1) ((word <<< 6) ||| (c &&& 0o77)) gaps inner := by
  rw [rpbAux, if_pos hc, if_neg hi]

theorem rpbAux_data_last (c : Nat) (s : List Nat) (word gaps inner : Nat)
    (hc : c &&& 0o200 ≠ 0) :
    rpbAux (c :: s) 2 word gaps inner
      = ⟨gaps, inner, some ((word <<< 6) ||| (c &&& 0o77), s)⟩ := by
  rw [rpbAux, if_pos hc, if_pos rfl]

theorem rpbAux_blank_zero (c : Nat) (s : List Nat) (word gaps inner : Nat)
    (hc : c &&& 0o200 = 0) :
    rpbAux (c :: s) 0 word gaps inner = rpbAux s 0 word (gaps + 1) inner := by
  rw [rpbAux, if_neg (not_not_intro hc), if_neg (by simp)]

theorem rpbAux_blank_pos (c : Nat) (s : List Nat) (i word gaps inner : Nat)
    (hc : c &&& 0o200 = 0) (hi : i ≠ 0) :
    rpbAux (c :: s) i word gaps inner = rpbAux s i word gaps (inner + 1) := by
  rw [rpbAux, if_neg (not_not_intro hc), if_pos hi]

/-- Round trip at the frame level: the three frames ppb writes for an
18-bit word read back as that word, with no gap and no inner blanks, and
the rest of the stream untouched. -/
theorem rpb_ppb (w : Nat) (hw : w < 2 ^ 18) (rest : List Nat) :
    rpb (ppb w ++ rest) = ⟨0, 0, some (w, rest)⟩ := by
  have ha : w / 4096 % 64 < 64 := Nat.mod_lt _ (by norm_num)
  have hb : w / 64 % 64 < 64 := Nat.mod_lt _ (by norm_num)
  have hc : w % 64 < 64 := Nat.mod_lt _ (by norm_num)
  have f1 := frame_facts _ ha
  have f2 := frame_facts _ hb
  have f3 := frame_facts _ hc
  rw [ppb_eq]
  show rpbAux _ 0 0 0 0 = _
  rw [List.cons_append, List.cons_append, List.cons_append, List.nil_append]
  rw [rpbAux_data _ _ 0 0 0 0 f1.1 (by norm_num), f1.2.1]
  rw [rpbAux_data _ _ 1 _ 0 0 f2.1 (by norm_num), f2.2.1]
  rw [rpbAux_data_last _ _ _ 0 0 f3.1, f3.2.1]
  rw [Nat.zero_shiftLeft, Nat.zero_or]
  rw [shiftLeft_or_of_lt _ (show w / 64 % 64 < 2 ^ 6 by omega)]
  rw [shiftLeft_or_of_lt _ (show w % 64 < 2 ^ 6 by omega)]
  have : (w / 4096 % 64 * 2 ^ 6 + w / 64 % 64) * 2 ^ 6 + w % 64 = w := by omega
  rw [this]

/-- C1: encoding an 18-bit word with ppb (three frames, big-endian 6-bit
groups, each OR'd with the 0200 marker) and decoding those three frames
with rpb yields the word again, with zero gap frames and zero inner
frames reported. -/
theorem c1_frame_roundtrip (w : Nat) (hw : w < 2 ^ 18) :
    rpb (ppb w) = ⟨0, 0, some (w, [])⟩ := by
  have h := rpb_ppb w hw []
  simpa using h

/-- Witness for C1 at the concrete word 0654321. -/
theorem c1_frame_roundtrip_witness :
    rpb (ppb 0o654321) = ⟨0, 0, some (0o654321, [])⟩ :=
  c1_frame_roundtrip 0o654321 (by norm_num)

/-- The 18-bit mask is reduction mod 2^18. -/
theorem and_mask18_eq_mod (x : Nat) : x &&& 0o777777 = x % 262144 := by
  have h := Nat.and_pow_two_sub_one_eq_mod x 18
  norm_num at h
  exact h

/-- add_1s_complement in arithmetic normal form. -/
theorem add_1s_complement_eq (a b : Nat) :
    add_1s_complement a b
      = ((a + b) % 2 ^ 32 % 262144 + (a + b) % 2 ^ 32 / 262144) % 262144 := by
  unfold add_1s_complement
  rw [and_mask18_eq_mod, and_mask18_eq_mod, Nat.shiftRight_eq_div_pow]

/-- The end-around-carry sum always fits in 18 bits. -/
theorem add_1s_complement_lt (a b : Nat) : add_1s_complement a b < 2 ^ 18 := by
  rw [add_1s_complement_eq]
  omega

/-- For 18-bit operands the end-around-carry sum is congruent to the plain
sum modulo 2^18 - 1. -/
theorem add_1s_complement_mod (a b : Nat) (ha : a < 2 ^ 18) (hb : b < 2 ^ 18) :
    add_1s_complement a b % 262143 = (a + b) % 262143 := by
  rw [add_1s_complement_eq]
  have h32 : (a + b) % 2 ^ 32 = a + b := Nat.mod_eq_of_lt (by omega)
  rw [h32]
  have hsmall : (a + b) % 262144 + (a + b) / 262144 < 262144 := by omega
  rw [Nat.mod_eq_of_lt hsmall]
  omega

theorem foldAdd_lt (ws : List Nat) (c : Nat) (hc : c < 2 ^ 18) : foldAdd c ws < 2 ^ 18 := by
  induction ws generalizing c with
  | nil => exact hc
  | cons w ws ih => exact ih _ (add_1s_complement_lt c w)

/-- The folded checksum is congruent to the plain sum of the words modulo
2^18 - 1. -/
theorem foldAdd_mod (ws : List Nat) (hws : ∀ w ∈ ws, w < 2 ^ 18) (c : Nat) (hc : c < 2 ^ 18) :
    foldAdd c ws % 262143 = (c + ws.sum) % 262143 := by
  induction ws generalizing c with
  | nil => simp [foldAdd]
  | cons w ws ih =>
    have hw : w < 2 ^ 18 := hws w (by simp)
    have hws2 : ∀ x ∈ ws, x < 2 ^ 18 := fun x hx => hws x (by simp [hx])
    have step : foldAdd c (w :: ws) = foldAdd (add_1s_complement c w) ws := rfl
    rw [step, ih hws2 _ (add_1s_complement_lt c w)]
    have h1 := add_1s_complement_mod c w hc hw
    have h2 : ws.sum % 262143 = ws.sum % 262143 := rfl
    simp only [List.sum_cons]
    omega

/-- Replacing one element of a list changes the sum by the difference. -/
theorem sum_set_add (ws : List Nat) (i : Nat) (hi : i < ws.length) (w : Nat) :
    (ws.set i w).sum + ws.get ⟨i, hi⟩ = ws.sum + w := by
  induction ws generalizing i with
  | nil => exact absurd hi (by simp)
  | cons hd tl ih =>
    match i with
    | 0 =>
      simp [List.set]
      omega
    | j + 1 =>
      have hj : j < tl.length := by simpa using hi
      have := ih j hj
      simp [List.set, List.get] at this ⊢
      omega

/-- C2 (amended): verifying the fold of a word sequence against itself
succeeds, and replacing the word at any position by a word that differs
modulo 2^18 - 1 (for 18-bit words this excludes only the one's-complement
pair 0 and 0777777) changes the folded checksum. -/
theorem c2_checksum_detects_mutation (ws : List Nat) (hws : ∀ w ∈ ws, w < 2 ^ 18)
    (i : Nat) (hi : i < ws.length) (w2 : Nat) (hw2 : w2 < 2 ^ 18)
    (hne : w2 % 262143 ≠ (ws.get ⟨i, hi⟩) % 262143) :
    verify_checksum (foldAdd 0 ws) (foldAdd 0 ws) = true ∧
    foldAdd 0 (ws.set i w2) ≠ foldAdd 0 ws := by
  refine ⟨by simp [verify_checksum], ?_⟩
  intro heq
  have hset : ∀ x ∈ ws.set i w2, x < 2 ^ 18 := by
    intro x hx
    rcases List.mem_or_eq_of_mem_set hx with h | h
    · exact hws x h
    · omega
  have h1 := foldAdd_mod ws hws 0 (by norm_num)
  have h2 := foldAdd_mod (ws.set i w2) hset 0 (by norm_num)
  have h3 := sum_set_add ws i hi w2
  rw [heq] at h2
  omega

/-- Witness for C2 at ws = [1, 2], mutating position 0 to 3. -/
theorem c2_checksum_detects_mutation_witness :
    verify_checksum (foldAdd 0 [1, 2]) (foldAdd 0 [1, 2]) = true ∧
    foldAdd 0 ([1, 2].set 0 3) ≠ foldAdd 0 [1, 2] :=
  c2_checksum_detects_mutation [1, 2] (by decide) 0 (by decide) 3 (by decide) (by decide)

/-- C2 counterexample: the claim as stated fails.  Replacing the word 0 of
the sequence [0, 5] by the different word 0777777 leaves the folded
checksum unchanged (both fold to 5, because 0 and 0777777 are both
one's-complement zeros), so verifying the mutated sequence against the
original checksum still succeeds. -/
theorem c2_mutation_counterexample :
    (0o777777 : Nat) ≠ 0 ∧
    [0, 5].set 0 0o777777 = [0o777777, 5] ∧
    foldAdd 0 [0o777777, 5] = foldAdd 0 [0, 5] ∧
    verify_checksum (foldAdd 0 [0, 5]) (foldAdd 0 ([0, 5].set 0 0o777777)) = true := by
  decide

theorem rpbAux_gap_run (b : List Nat) (hb : ∀ c ∈ b, c &&& 0o200 = 0)
    (s : List Nat) (word gaps inner : Nat) :
    rpbAux (b ++ s) 0 word gaps inner = rpbAux s 0 word (gaps + b.length) inner := by
  induction b generalizing gaps with
  | nil => simp
  | cons c b ih =>
    have hc : c &&& 0o200 = 0 := hb c (by simp)
    have hb2 : ∀ x ∈ b, x &&& 0o200 = 0 := fun x hx => hb x (by simp [hx])
    rw [List.cons_append, rpbAux_blank_zero _ _ _ _ _ hc, ih hb2]
    congr 1
    simp
    omega

theorem rpbAux_inner_run (b : List Nat) (hb : ∀ c ∈ b, c &&& 0o200 = 0)
    (s : List Nat) (i word gaps inner : Nat) (hi : i ≠ 0) :
    rpbAux (b ++ s) i word gaps inner = rpbAux s i word gaps (inner + b.length) := by
  induction b generalizing inner with
  | nil => simp
  | cons c b ih =>
    have hc : c &&& 0o200 = 0 := hb c (by simp)
    have hb2 : ∀ x ∈ b, x &&& 0o200 = 0 := fun x hx => hb x (by simp [hx])
    rw [List.cons_append, rpbAux_blank_pos _ _ _ _ _ _ hc hi, ih hb2]
    congr 1
    simp
    omega

/-- rpb on a word image whose three data frames are separated by arbitrary
blank runs: the blanks before the first data frame are the gap, the blanks
between data frames are the inner count, and the word is assembled from
the three 6-bit payloads. -/
theorem rpb_classify (b1 b2 b3 : List Nat) (d1 d2 d3 : Nat) (rest : List Nat)
    (hb1 : ∀ c ∈ b1, c &&& 0o200 = 0) (hb2 : ∀ c ∈ b2, c &&& 0o200 = 0)
    (hb3 : ∀ c ∈ b3, c &&& 0o200 = 0)
    (hd1 : d1 &&& 0o200 ≠ 0) (hd2 : d2 &&& 0o200 ≠ 0) (hd3 : d3 &&& 0o200 ≠ 0) :
    rpb (b1 ++ d1 :: (b2 ++ d2 :: (b3 ++ d3 :: rest)))
      = ⟨b1.length, b2.length + b3.length,
         some ((d1 &&& 0o77) * 4096 + (d2 &&& 0o77) * 64 + (d3 &&& 0o77), rest)⟩ := by
  have p1 : d1 &&& 0o77 < 2 ^ 6 := by
    have := Nat.and_le_right (n := d1) (m := 0o77)
    omega
  have p2 : d2 &&& 0o77 < 2 ^ 6 := by
    have := Nat.and_le_right (n := d2) (m := 0o77)
    omega
  have p3 : d3 &&& 0o77 < 2 ^ 6 := by
    have := Nat.and_le_right (n := d3) (m := 0o77)
    omega
  show rpbAux _ 0 0 0 0 = _
  rw [rpbAux_gap_run b1 hb1 _ 0 0 0]
  rw [rpbAux_data _ _ 0 0 _ 0 hd1 (by norm_num)]
  rw [rpbAux_inner_run b2 hb2 _ 1 _ _ 0 (by norm_num)]
  rw [rpbAux_data _ _ 1 _ _ _ hd2 (by norm_num)]
  rw [rpbAux_inner_run b3 hb3 _ 2 _ _ _ (by norm_num)]
  rw [rpbAux_data_last _ _ _ _ _ hd3]
  rw [Nat.zero_shiftLeft, Nat.zero_or]
  rw [shiftLeft_or_of_lt _ p2, shiftLeft_or_of_lt _ p3]
  have e : ((d1 &&& 0o77) * 2 ^ 6 + (d2 &&& 0o77)) * 2 ^ 6 + (d3 &&& 0o77)
      = (d1 &&& 0o77) * 4096 + (d2 &&& 0o77) * 64 + (d3 &&& 0o77) := by ring
  rw [e]
  norm_num

/-- C5: while assembling one word, blank frames strictly before the first
data frame count as gap, blank frames between the first and third data
frames count as inner frames, and any nonzero inner count makes
read_next_word fail with the fatal inner-dropout error, regardless of how
many inner blanks there are or where they fall. -/
theorem c5_gap_classification (b1 b2 b3 : List Nat) (d1 d2 d3 : Nat) (rest : List Nat)
    (hb1 : ∀ c ∈ b1, c &&& 0o200 = 0) (hb2 : ∀ c ∈ b2, c &&& 0o200 = 0)
    (hb3 : ∀ c ∈ b3, c &&& 0o200 = 0)
    (hd1 : d1 &&& 0o200 ≠ 0) (hd2 : d2 &&& 0o200 ≠ 0) (hd3 : d3 &&& 0o200 ≠ 0) :
    rpb (b1 ++ d1 :: (b2 ++ d2 :: (b3 ++ d3 :: rest)))
      = ⟨b1.length, b2.length + b3.length,
         some ((d1 &&& 0o77) * 4096 + (d2 &&& 0o77) * 64 + (d3 &&& 0o77), rest)⟩ ∧
    (b2.length + b3.length ≠ 0 →
      read_next_word (b1 ++ d1 :: (b2 ++ d2 :: (b3 ++ d3 :: rest)))
        = .innerDropout (b2.length + b3.length)) := by
  have h := rpb_classify b1 b2 b3 d1 d2 d3 rest hb1 hb2 hb3 hd1 hd2 hd3
  refine ⟨h, fun hnz => ?_⟩
  rw [read_next_word]
  rw [h]
  simp [hnz]

/-- Witness for C5: one blank frame before the word and one between its
first and second data frames; the word read fails as an inner dropout. -/
theorem c5_gap_classification_witness :
    rpb [0, 0o201, 0, 0o202, 0o203]
      = ⟨1, 1, some (4227, [])⟩ ∧
    read_next_word [0, 0o201, 0, 0o202, 0o203] = .innerDropout 1 := by
  have h := c5_gap_classification [0] [0] [] 0o201 0o202 0o203 []
    (by decide) (by decide) (by decide) (by decide) (by decide) (by decide)
  exact ⟨by simpa using h.1, by simpa using h.2 (by decide)⟩

/-- C6 (amended): every frame ppb emits has the 0200 data-marker bit set
and the 0100 bit clear (the writer never sets the 7th bit), and rpb
ignores the 0100 bit entirely: toggling it on the next frame of any
stream leaves the read result unchanged. -/
theorem c6_seventh_bit (w : Nat) (f : Nat) (hf : f ∈ ppb w) :
    (f &&& 0o200 ≠ 0 ∧ f &&& 0o100 = 0) ∧
    (∀ c : Nat, ∀ s : List Nat, rpb (c :: s) = rpb ((c ^^^ 0o100) :: s)) := by
  constructor
  · rw [ppb_eq] at hf
    simp only [List.mem_cons, List.not_mem_nil, or_false] at hf
    rcases hf with h | h | h <;>
      · subst h
        exact ⟨(frame_facts _ (Nat.mod_lt _ (by norm_num))).1,
               (frame_facts _ (Nat.mod_lt _ (by norm_num))).2.2⟩
  · intro c s
    have h200 : (c ^^^ 0o100) &&& 0o200 = c &&& 0o200 := by
      rw [Nat.and_xor_distrib_right]
      have h0 : (0o100 : Nat) &&& 0o200 = 0 := by decide
      rw [h0, Nat.xor_zero]
    have h77 : (c ^^^ 0o100) &&& 0o77 = c &&& 0o77 := by
      rw [Nat.and_xor_distrib_right]
      have h0 : (0o100 : Nat) &&& 0o77 = 0 := by decide
      rw [h0, Nat.xor_zero]
    show rpbAux _ 0 0 0 0 = rpbAux _ 0 0 0 0
    rw [rpbAux, rpbAux, h200, h77]

/-- Witness for C6 at w = 0, c = 0o201: the emitted frame 0200 has the
marker set and bit 0100 clear, and reading 0o201 or 0o301 first is the
same. -/
theorem c6_seventh_bit_witness :
    ((0o200 : Nat) &&& 0o200 ≠ 0 ∧ (0o200 : Nat) &&& 0o100 = 0) ∧
    rpb (0o201 :: [0o202, 0o203]) = rpb ((0o201 ^^^ 0o100) :: [0o202, 0o203]) := by
  have h := c6_seventh_bit 0 0o200 (by decide)
  exact ⟨h.1, h.2 0o201 [0o202, 0o203]⟩

/-- C6 counterexample: the claim that ppb sets the 7th bit (0100) on every
frame is false: encoding the word 0 emits three frames 0200, whose 0100
bit is clear.  (The bit ppb always sets is 0200, the data marker.) -/
theorem c6_seventh_bit_counterexample :
    ppb 0 = [0o200, 0o200, 0o200] ∧ (0o200 : Nat) &&& 0o100 = 0 := by
  decide

/-- C7: a pitch field of 0 or 1 decodes as a rest; a pitch field of
exactly 2 decodes to octave 1, semitone 0; composite articulation value 3
is rejected fatally, and exactly the composite values 0, 1, 2, 4, 8 are
accepted. -/
theorem c7_note_decode_boundary :
    (∀ w : Nat, (w >>> 7) &&& 0o77 = 0 ∨ (w >>> 7) &&& 0o77 = 1 →
      (parse_note w).note_name = REST_NAME ∧ (parse_note w).octave = 0) ∧
    (∀ w : Nat, (w >>> 7) &&& 0o77 = 2 →
      (parse_note w).octave = 1 ∧ (parse_note w).semi_tone = 0) ∧
    articulation_name 3 = none ∧
    (∀ a : Nat, (articulation_name a).isSome ↔ a = 0 ∨ a = 1 ∨ a = 2 ∨ a = 4 ∨ a = 8) := by
  refine ⟨?_, ?_, by decide, ?_⟩
  · intro w hw
    have hp : ¬ ((w >>> 7) &&& 0o77 > 1) := by omega
    rw [parse_note]
    simp only [hp, if_false]
    exact ⟨trivial, trivial⟩
  · intro w hw
    rw [parse_note]
    simp only [hw]
    norm_num
  · intro a
    rw [articulation_name]
    split_ifs with h1 h2 h3 <;> simp_all
    tauto

/-- Witness for C7 at the words 0 (pitch 0, a rest) and 0400 (pitch 2,
the lowest pitched note) and the articulation values 3 and 4. -/
theorem c7_note_decode_boundary_witness :
    ((parse_note 0).note_name = REST_NAME ∧ (parse_note 0).octave = 0) ∧
    ((parse_note 0o400).octave = 1 ∧ (parse_note 0o400).semi_tone = 0) ∧
    articulation_name 3 = none ∧
    (articulation_name 4).isSome := by
  refine ⟨c7_note_decode_boundary.1 0 (by decide),
    c7_note_decode_boundary.2.1 0o400 (by decide),
    c7_note_decode_boundary.2.2.1, ?_⟩
  rw [(c7_note_decode_boundary.2.2.2 4)]
  norm_num

/-- C9: note and tempo decoding have an unstated nonzero-divisor
precondition.  A note word with all-zero low 7 bits makes the divisor
duration * (triplet ? 2 : 3) zero, so note_duration is a division by
zero (total in Nat: 192 / 0); a tempo word with all-zero low 15 bits
makes decode_tempo_quarter divide by zero (11436 / 0). -/
theorem c9_division_by_zero :
    (∀ w : Nat, w &&& 0o177 = 0 →
      (parse_note w).duration * (if (parse_note w).triplet ≠ 0 then 2 else 3) = 0 ∧
      (parse_note w).note_duration = 192 / 0) ∧
    (∀ t : Nat, t &&& 0o77777 = 0 → decode_tempo_quarter t = 11436 / 0) := by
  constructor
  · intro w hw
    have hdur : (parse_note w).duration = 0 := by
      rw [parse_note]
      split_ifs <;> simpa using hw
    have hnd : (parse_note w).note_duration
        = 192 / ((parse_note w).duration * (if (parse_note w).triplet ≠ 0 then 2 else 3)) := by
      rw [parse_note]
      split_ifs <;> rfl
    refine ⟨by rw [hdur]; ring, ?_⟩
    rw [hnd, hdur]
    norm_num
  · intro t ht
    rw [decode_tempo_quarter, ht]

/-- Witness for C9 at the note word 0 and the tempo word 0700000. -/
theorem c9_division_by_zero_witness :
    ((parse_note 0).duration * (if (parse_note 0).triplet ≠ 0 then 2 else 3) = 0 ∧
      (parse_note 0).note_duration = 192 / 0) ∧
    decode_tempo_quarter 0o700000 = 11436 / 0 :=
  ⟨c9_division_by_zero.1 0 (by decide), c9_division_by_zero.2 0o700000 (by decide)⟩

/-- Reading the image of an 18-bit word at the head of the stream: no
gap, no dropout, the word comes back. -/
theorem read_next_word_ppb (x : Nat) (hx : x < 2 ^ 18) (rest : List Nat) :
    read_next_word (ppb x ++ rest) = .ok x 0 rest := by
  rw [read_next_word, rpb_ppb x hx rest]
  simp

/-- C3 (amended): end-of-stream reached anywhere while read_bars is
running - at its count word, mid-section, or at the post-checksum peek -
makes read_bars return EOF, which the voice loop treats as normal
termination (exit 0); end-of-stream during read_notes is the distinct
error outcome (exit 1, EOF in notes section); and the two outcomes are
distinguishable.  The program does not single out the post-checksum peek:
every EOF inside a BARS section terminates the run without error. -/
theorem c3_eof_outcomes :
    (∀ fuel : Nat, ∀ s : List Nat, read_notes s = NotesRes.eof →
      decode_voices (fuel + 1) s = RunResult.eofInNotes) ∧
    (∀ fuel : Nat, ∀ s s2 : List Nat, ∀ notes : List Nat, ∀ nc : Nat,
      read_notes s = NotesRes.ok notes nc s2 → read_bars s2 notes nc = BarsRes.eof →
      decode_voices (fuel + 1) s = RunResult.ok) ∧
    RunResult.eofInNotes ≠ RunResult.ok := by
  refine ⟨?_, ?_, by decide⟩
  · intro fuel s h
    simp [decode_voices, h]
  · intro fuel s s2 notes nc h1 h2
    simp [decode_voices, h1, h2]

/-- Witness for C3: the empty stream is EOF in the first NOTES section
(error exit); a stream holding exactly one empty NOTES section (count 0,
checksum 0) hits EOF at the start of the BARS section and terminates
normally. -/
theorem c3_eof_outcomes_witness :
    decode_voices 4 [] = RunResult.eofInNotes ∧
    decode_voices 4 (ppb 0 ++ ppb 0) = RunResult.ok := by
  refine ⟨c3_eof_outcomes.1 3 [] (by decide), ?_⟩
  exact c3_eof_outcomes.2.1 3 (ppb 0 ++ ppb 0) [] [] 4294967295 (by decide) (by decide)

/-- C3 counterexample: the claim that end-of-stream inside a BARS section
before its checksum word is an error is false.  This tape holds a valid
empty NOTES section, a gap, and a BARS count word announcing 2 data
words, then ends; the run nevertheless terminates with the normal result
(exit 0), indistinguishable from legitimate post-checksum termination. -/
theorem c3_eof_counterexample :
    decode_run (ppb 0 ++ ppb 0 ++ 0 :: ppb 2) = RunResult.ok := by
  decide

/-- C8: a BARS section whose leading gap is zero blank frames fails
fatally with the missing-gap error before any of the section's data words
are read (the remaining stream s2 is arbitrary and never examined), in
both the decode consumer (read_bars) and the re-encode consumer
(copy_bars): a BARS section never directly abuts the preceding NOTES
checksum word. -/
theorem c8_missing_gap (s : List Nat) (w : Nat) (s2 : List Nat)
    (h : rpb s = ⟨0, 0, some (w, s2)⟩) (notes : List Nat) (nc : Nat) :
    read_bars s notes nc = BarsRes.fatal Err.missingGap ∧
    copy_bars s = CopyBarsRes.fatal Err.missingGap := by
  constructor
  · rw [read_bars, read_next_word, h]
    simp
  · rw [copy_bars, read_next_word, h]
    simp

/-- Witness for C8: a BARS count word abutting the previous word with no
blank frames in between. -/
theorem c8_missing_gap_witness :
    read_bars (ppb 5 ++ ppb 0) [] 0 = BarsRes.fatal Err.missingGap ∧
    copy_bars (ppb 5 ++ ppb 0) = CopyBarsRes.fatal Err.missingGap :=
  c8_missing_gap (ppb 5 ++ ppb 0) 5 (ppb 0) (by decide) [] 0

/-- C10: in a BARS section the 0600000 sentinel is accepted only as the
last data word (rem = 1, that is, data position equal to count); read at
any earlier data position (rem at least 2) the loop aborts fatally at
once, whatever bytes follow, hence before the section's checksum is
verified.  As the last data word it is accepted: the loop goes on to
verify the checksum and hand over the next voice. -/
theorem c10_sentinel_position (rem : Nat) (hrem : 2 ≤ rem) (s : List Nat) (c : Nat)
    (notes : List Nat) (nc : Nat) (rest : List Nat) :
    read_bars_loop rem (ppb 0o600000 ++ s) c notes nc = BarsRes.fatal Err.earlyBarsSentinel ∧
    read_bars_loop 1 (ppb 0o600000 ++ (ppb (add_1s_complement c 0o600000) ++ (ppb 0 ++ rest)))
        c notes nc
      = BarsRes.nextVoice (ppb 0 ++ rest) := by
  constructor
  · obtain ⟨r, rfl⟩ : ∃ r, rem = r + 2 := ⟨rem - 2, by omega⟩
    rw [show r + 2 = (r + 1) + 1 by ring, read_bars_loop,
      read_next_word_ppb 0o600000 (by norm_num) s]
    simp
  · have e1 := read_next_word_ppb 0o600000 (by norm_num)
      (ppb (add_1s_complement c 0o600000) ++ (ppb 0 ++ rest))
    have e2 := read_next_word_ppb (add_1s_complement c 0o600000)
      (add_1s_complement_lt c 0o600000) (ppb 0 ++ rest)
    have e3 : peek_gap (ppb 0 ++ rest) = (0, false) := by
      rw [peek_gap, rpb_ppb 0 (by norm_num) rest]
      simp
    simp [read_bars_loop, e1, e2, e3, verify_checksum]

/-- Witness for C10 with a two-data-word section (rem = 2) and checksum
accumulator 0. -/
theorem c10_sentinel_position_witness :
    read_bars_loop 2 (ppb 0o600000 ++ []) 0 [] 0 = BarsRes.fatal Err.earlyBarsSentinel ∧
    read_bars_loop 1 (ppb 0o600000 ++ (ppb (add_1s_complement 0 0o600000) ++ (ppb 0 ++ [])))
        0 [] 0
      = BarsRes.nextVoice (ppb 0 ++ []) :=
  c10_sentinel_position 2 (by norm_num) [] 0 [] 0 []

/-- One checksum-word step of the copy_notes loop: at rem = 0 the source
checksum word (equal to the accumulator) is consumed and new_checksum is
written in its place. -/
theorem copy_notes_loop_zero (tempo c nc : Nat) (hc : c < 2 ^ 18) (out rest : List Nat) :
    copy_notes_loop tempo 0 (ppb c ++ rest) c nc out = .ok rest (out ++ ppb nc) := by
  rw [copy_notes_loop, read_next_word_ppb c hc rest]
  simp [verify_checksum]

/-- One data-word step of the copy_notes loop: the source word goes into
the source checksum, the substituted word is written and goes into the
new checksum. -/
theorem copy_notes_loop_step (tempo r w : Nat) (hw : w < 2 ^ 18)
    (s : List Nat) (c nc : Nat) (out : List Nat) :
    copy_notes_loop tempo (r + 1) (ppb w ++ s) c nc out
      = copy_notes_loop tempo r s (add_1s_complement c w)
          (add_1s_complement nc (subst_tempo tempo w)) (out ++ ppb (subst_tempo tempo w)) := by
  rw [copy_notes_loop, read_next_word_ppb w hw s]
  by_cases hcond : w &&& 0o700000 = 0o700000 ∧ tempo ≠ 0xFFFFFFFF
  · simp only [subst_tempo, if_pos hcond]
  · simp only [subst_tempo, if_neg hcond]

/-- Invariant of the copy_notes loop over a whole section tail: given the
byte images of the remaining data words followed by the matching source
checksum word, the loop consumes them, writes the substituted words, and
ends by writing the fold of the new checksum accumulator over the
substituted words. -/
theorem copy_notes_loop_spec (tempo : Nat) (data : List Nat) :
    ∀ (hdata : ∀ w ∈ data, w < 2 ^ 18) (c : Nat) (hc : c < 2 ^ 18) (nc : Nat)
      (out rest : List Nat),
    copy_notes_loop tempo data.length (ppbList (data ++ [foldAdd c data]) ++ rest) c nc out
      = .ok rest (out ++ (ppbList (data.map (subst_tempo tempo))
          ++ ppb (foldAdd nc (data.map (subst_tempo tempo))))) := by
  induction data with
  | nil =>
    intro _ c hc nc out rest
    have e0 : ppbList (([] : List Nat) ++ [foldAdd c []]) ++ rest = ppb c ++ rest := by
      simp [ppbList, foldAdd]
    rw [show (([] : List Nat)).length = 0 from rfl, e0, copy_notes_loop_zero tempo c nc hc]
    simp [ppbList, foldAdd]
  | cons w data ih =>
    intro hdata c hc nc out rest
    have hw : w < 2 ^ 18 := hdata w (by simp)
    have hd2 : ∀ x ∈ data, x < 2 ^ 18 := fun x hx => hdata x (by simp [hx])
    have estream : ppbList ((w :: data) ++ [foldAdd c (w :: data)]) ++ rest
        = ppb w ++ (ppbList (data ++ [foldAdd (add_1s_complement c w) data]) ++ rest) := by
      simp [ppbList, foldAdd]
    rw [show (w :: data).length = data.length + 1 from rfl, estream,
      copy_notes_loop_step tempo data.length w hw _ c nc out,
      ih hd2 (add_1s_complement c w) (add_1s_complement_lt c w) _ _ rest]
    have efold : foldAdd nc ((w :: data).map (subst_tempo tempo))
        = foldAdd (add_1s_complement nc (subst_tempo tempo w)) (data.map (subst_tempo tempo)) := rfl
    rw [efold]
    simp [ppbList]

/-- C4: a NOTES section re-encoded by copy_notes with a tempo override in
effect emits as its checksum word the end-around-carry fold of the data
words as actually written - each tempo word replaced by 0700000 OR'd with
the override's low 15 bits - not the source section's checksum word. -/
theorem c4_reencoded_checksum (tempo : Nat) (htempo : tempo ≠ 0xFFFFFFFF)
    (data : List Nat) (hdata : ∀ w ∈ data, w < 2 ^ 18) (hlen : data.length < 2 ^ 18)
    (rest : List Nat) :
    copy_notes tempo (ppbList ((data.length :: data) ++ [foldAdd 0 data]) ++ rest)
      = CopyNotesRes.ok rest (ppbList (data.length :: data.map (subst_tempo tempo))
          ++ ppb (foldAdd 0 (data.map (subst_tempo tempo)))) := by
  have estream : ppbList ((data.length :: data) ++ [foldAdd 0 data]) ++ rest
      = ppb data.length ++ (ppbList (data ++ [foldAdd 0 data]) ++ rest) := by
    simp [ppbList]
  rw [copy_notes, estream, read_next_word_ppb data.length hlen _]
  rw [show (ReadRes.ok data.length 0 (ppbList (data ++ [foldAdd 0 data]) ++ rest)) = _ from rfl]
  simp only []
  rw [copy_notes_loop_spec tempo data hdata 0 (by norm_num) 0 (ppb data.length) rest]
  simp [ppbList]

/-- Witness for C4, the spec scenario: a count = 1 section holding the
single tempo word 0700144 (raw tempo 100) with matching checksum,
re-encoded with override 200; the emitted section is count 1, the
substituted word 0700310 = 0700000 | 200, and a checksum word equal to
that substituted word's value - not the source checksum 0700144. -/
theorem c4_reencoded_checksum_witness :
    copy_notes 200 (ppbList [1, 0o700144, 0o700144])
      = CopyNotesRes.ok [] (ppbList [1, 0o700310] ++ ppb 0o700310) ∧
    (0o700310 : Nat) = 0o700000 ||| (200 &&& 0o77777) ∧ (0o700310 : Nat) ≠ 0o700144 := by
  have h := c4_reencoded_checksum 200 (by norm_num) [0o700144] (by decide) (by decide) []
  revert h
  decide
